import Mathlib

/-!
Verification of the per-tab queue/dispatch coordinator of the powerchat
browser extension (`bg.js`).  The coordinator owns, per tab, an ordered
queue of `{id, text}` items together with `paused`, `pageBusy` and
`sending` flags, persists `{queue, paused}`, and hands items one at a
time to the content script (the Page Driver).

The embedding below is a direct translation of `bg.js`:
* `State` is the per-tab record created by `getState`;
* `Saved`/`saveRecord`/`loadState` model `save` and the lazy load in
  `getState` (`saved?.queue ?? []`, `saved?.paused ?? false`,
  `pageBusy = false`, `sending = false`);
* `maybeSendNext` models the dispatch attempt, with a boolean oracle
  `sendOk` for whether `chrome.tabs.sendMessage` succeeds (the `catch`
  branch resets `sending` to `false` without touching the queue);
* `step` models one `onMessage` trigger run to completion; its
  `Effects` record what the handler did besides mutating the state:
  what it persisted, whether it broadcast, what it responded, which
  item (if any) it handed to the Page Driver, whether it evaluated
  dispatch eligibility, and whether it armed the 400 ms retry timer
  (the `setTimeout` in the `ERROR` case).
-/

namespace PowerChat

/-- A queued item, `{id, text}` in `bg.js`. -/
structure Item where
  id : String
  text : String
deriving DecidableEq

/-- The per-tab state record built by `getState` in `bg.js`:
`{ queue, paused, pageBusy, sending }`. -/
structure State where
  queue : List Item
  paused : Bool
  pageBusy : Bool
  sending : Bool
deriving DecidableEq

/-- The persisted record written by `save`: exactly `{ queue, paused }`. -/
structure Saved where
  queue : List Item
  paused : Bool
deriving DecidableEq

/-- `save` in `bg.js`: persist exactly the two durable fields. -/
def saveRecord (s : State) : Saved :=
  { queue := s.queue, paused := s.paused }

/-- The lazy initialisation in `getState`: load `queue`/`paused` from the
stored record when present (defaulting to `[]` and `false`), and always
start with `pageBusy = false` and `sending = false`. -/
def loadState : Option Saved → State
  | none => { queue := [], paused := false, pageBusy := false, sending := false }
  | some r => { queue := r.queue, paused := r.paused, pageBusy := false, sending := false }

/-- The set of characters trimmed by JavaScript `String.prototype.trim`. -/
def jsWhitespaceChars : List Char :=
  [' ', '\t', '\n', '\r', Char.ofNat 0x0b, Char.ofNat 0x0c,
   Char.ofNat 0xa0, Char.ofNat 0x1680, Char.ofNat 0x2000, Char.ofNat 0x2001,
   Char.ofNat 0x2002, Char.ofNat 0x2003, Char.ofNat 0x2004, Char.ofNat 0x2005,
   Char.ofNat 0x2006, Char.ofNat 0x2007, Char.ofNat 0x2008, Char.ofNat 0x2009,
   Char.ofNat 0x200a, Char.ofNat 0x2028, Char.ofNat 0x2029, Char.ofNat 0x202f,
   Char.ofNat 0x205f, Char.ofNat 0x3000, Char.ofNat 0xfeff]

/-- Whether `c` is JavaScript whitespace. -/
def isJsWS (c : Char) : Bool :=
  jsWhitespaceChars.contains c

/-- JavaScript `String.prototype.trim`: strip whitespace from both ends. -/
def jsTrim (s : String) : String :=
  String.mk (((s.data.dropWhile isJsWS).reverse.dropWhile isJsWS).reverse)

/-- `maybeSendNext` in `bg.js`.  Returns early when `paused`, `sending`,
`pageBusy`, or the queue is empty; otherwise sets `sending := true` and
hands the head item to the content script via `chrome.tabs.sendMessage`.
`sendOk` tells whether that call succeeds; on failure the `catch` branch
resets `sending := false` and the queue is not mutated.  The second
component is the item actually delivered to the Page Driver, if any. -/
def maybeSendNext (sendOk : Bool) (s : State) : State × Option Item :=
  if s.paused then (s, none)
  else if s.sending then (s, none)
  else if s.pageBusy then (s, none)
  else
    match s.queue with
    | [] => (s, none)
    | next :: _ =>
      if sendOk then ({ s with sending := true }, some next)
      else ({ s with sending := false }, none)

/-- The acknowledgement sent back through `sendResponse`. -/
inductive Resp where
  | okId (id : String)
  | ok
  | okState (queue : List Item) (paused : Bool)
  | notFound
deriving DecidableEq

/-- What one `onMessage` handler did besides mutating the state. -/
structure Effects where
  saved : Option Saved := none
  broadcasted : Bool := false
  response : Option Resp := none
  dispatched : Option Item := none
  evaluated : Bool := false
  retryArmed : Bool := false
deriving DecidableEq

/-- The `QUEUE_UPDATE` mutation: `findIndex` on the id, then replace the
`text` of the first matching item in place (`{ ...item, text }`),
returning `none` when no item matches. -/
def updateFirst (id text : String) : List Item → Option (List Item)
  | [] => none
  | it :: rest =>
    if it.id = id then some ({ it with text := text } :: rest)
    else (updateFirst id text rest).map (it :: ·)

/-- One trigger handled by the `onMessage` listener in `bg.js` (plus the
internal dispatch attempt, which the `ERROR` case also schedules through
`setTimeout`).  `genId` is the value produced by `randomId()`; `sendOk`
is whether the handoff `chrome.tabs.sendMessage` would succeed. -/
inductive Trigger where
  | add (genId : String) (text : Option String) (sendOk : Bool)
  | remove (id : String)
  | update (id : String) (text : String)
  | clear
  | pause
  | resume (sendOk : Bool)
  | pageState (busy : Bool) (sendOk : Bool)
  | attempt (sendOk : Bool)
  | submitted (id : String)
  | error
deriving DecidableEq

/-- One `onMessage` handler of `bg.js` run to completion on state `s`.
Each branch is a direct translation of the corresponding `case`. -/
def step (t : Trigger) (s : State) : State × Effects :=
  match t with
  | .add gid txt sendOk =>
    let s1 := { s with queue := s.queue ++ [⟨gid, jsTrim (txt.getD "")⟩] }
    let r := maybeSendNext sendOk s1
    (r.1, { saved := some (saveRecord s1), broadcasted := true,
            response := some (.okId gid), dispatched := r.2, evaluated := true })
  | .remove id =>
    let s1 := { s with queue := s.queue.filter (fun it => it.id != id) }
    (s1, { saved := some (saveRecord s1), broadcasted := true, response := some .ok })
  | .update id text =>
    match updateFirst id (jsTrim text) s.queue with
    | some q =>
      let s1 := { s with queue := q }
      (s1, { saved := some (saveRecord s1), broadcasted := true, response := some .ok })
    | none => (s, { response := some .notFound })
  | .clear =>
    let s1 := { s with queue := [] }
    (s1, { saved := some (saveRecord s1), broadcasted := true, response := some .ok })
  | .pause =>
    let s1 := { s with paused := true }
    (s1, { saved := some (saveRecord s1), broadcasted := true, response := some .ok })
  | .resume sendOk =>
    let s1 := { s with paused := false }
    let r := maybeSendNext sendOk s1
    (r.1, { saved := some (saveRecord s1), broadcasted := true,
            response := some .ok, dispatched := r.2, evaluated := true })
  | .pageState busy sendOk =>
    let s1 := { s with pageBusy := busy }
    if s.pageBusy != busy && !busy then
      let r := maybeSendNext sendOk s1
      (r.1, { dispatched := r.2, evaluated := true })
    else (s1, {})
  | .attempt sendOk =>
    let r := maybeSendNext sendOk s
    (r.1, { dispatched := r.2, evaluated := true })
  | .submitted id =>
    match s.queue with
    | it :: rest =>
      if it.id = id then
        let s1 := { s with queue := rest, sending := false }
        (s1, { saved := some (saveRecord s1), broadcasted := true })
      else ({ s with sending := false }, {})
    | [] => ({ s with sending := false }, {})
  | .error =>
    ({ s with sending := false }, { broadcasted := true, retryArmed := true })

/-- Run a list of triggers in order from state `s`. -/
def applyTriggers (ts : List Trigger) (s : State) : State :=
  ts.foldl (fun s t => (step t s).1) s

/-- A context freshly created with nothing persisted. -/
def initState : State := loadState none

/-- Reachability from a fresh context by a sequence of triggers. -/
def Reachable (s : State) : Prop :=
  ∃ ts : List Trigger, applyTriggers ts initState = s

/-- The ids handed out by `randomId()` for the enqueues of a trigger
sequence, in order. -/
def enqueuedIds (ts : List Trigger) : List String :=
  ts.filterMap fun t =>
    match t with
    | .add gid _ _ => some gid
    | _ => none


/-! ### Helper lemmas about `maybeSendNext` -/

/-- A dispatch attempt never mutates the queue. -/
lemma maybeSendNext_queue (sendOk : Bool) (s : State) :
    (maybeSendNext sendOk s).1.queue = s.queue := by
  rcases s with ⟨q, p, b, sd⟩
  cases p <;> cases sd <;> cases b <;> cases q <;> cases sendOk <;> rfl

/-- A dispatch attempt never mutates `paused`. -/
lemma maybeSendNext_paused (sendOk : Bool) (s : State) :
    (maybeSendNext sendOk s).1.paused = s.paused := by
  rcases s with ⟨q, p, b, sd⟩
  cases p <;> cases sd <;> cases b <;> cases q <;> cases sendOk <;> rfl

/-- A dispatch attempt never mutates `pageBusy`. -/
lemma maybeSendNext_pageBusy (sendOk : Bool) (s : State) :
    (maybeSendNext sendOk s).1.pageBusy = s.pageBusy := by
  rcases s with ⟨q, p, b, sd⟩
  cases p <;> cases sd <;> cases b <;> cases q <;> cases sendOk <;> rfl

/-- When the handoff call fails (`catch` branch), the net effect on
`sending` is nil: it was set to `true` and reset to `false`, and the
attempt only runs from `sending = false`. -/
lemma maybeSendNext_false_sending (s : State) :
    (maybeSendNext false s).1.sending = s.sending := by
  rcases s with ⟨q, p, b, sd⟩
  cases p <;> cases sd <;> cases b <;> cases q <;> rfl

/-- When the handoff call fails, no item reaches the Page Driver. -/
lemma maybeSendNext_false_dispatched (s : State) :
    (maybeSendNext false s).2 = none := by
  rcases s with ⟨q, p, b, sd⟩
  cases p <;> cases sd <;> cases b <;> cases q <;> rfl

/-! ### C1: dispatch happens only from an eligible state, and targets the head -/

/-- C1: `maybeSendNext` hands an item to the Page Driver only when the
queue is non-empty, `paused` is false, `pageBusy` is false and `sending`
(`dispatching`) is false; when it dispatches it sets `sending := true`,
leaves the queue untouched, and the dispatched item is exactly the head
`queue[0]` — so at most one item is in flight and it is the head item. -/
theorem dispatch_only_when_eligible (s s' : State) (sendOk : Bool) (it : Item)
    (h : maybeSendNext sendOk s = (s', some it)) :
    s.paused = false ∧ s.sending = false ∧ s.pageBusy = false ∧
    s.queue.head? = some it ∧ s'.sending = true ∧ s'.queue = s.queue := by
  unfold maybeSendNext at h
  by_cases hp : s.paused = true
  · simp [hp] at h
  · by_cases hs : s.sending = true
    · simp [hp, hs] at h
    · by_cases hb : s.pageBusy = true
      · simp [hp, hs, hb] at h
      · cases hq : s.queue with
        | nil => simp [hp, hs, hb, hq] at h
        | cons a rest =>
          cases hok : sendOk with
          | false => simp [hp, hs, hb, hq, hok] at h
          | true =>
            simp only [hp, hs, hb, hq, hok, if_false, if_true, Bool.false_eq_true,
              Prod.mk.injEq, Option.some.injEq] at h
            obtain ⟨hs', hit⟩ := h
            refine ⟨by simpa using hp, by simpa using hs, by simpa using hb, ?_, ?_, ?_⟩
            · rw [← hit]; rfl
            · rw [← hs']
            · rw [← hs']

/-- Witness for C1 at a concrete eligible state. -/
theorem dispatch_only_when_eligible_witness :
    (⟨[⟨"a", "hi"⟩], false, false, false⟩ : State).paused = false ∧
    (⟨[⟨"a", "hi"⟩], false, false, false⟩ : State).sending = false ∧
    (⟨[⟨"a", "hi"⟩], false, false, false⟩ : State).pageBusy = false ∧
    (⟨[⟨"a", "hi"⟩], false, false, false⟩ : State).queue.head? = some ⟨"a", "hi"⟩ ∧
    (⟨[⟨"a", "hi"⟩], false, false, true⟩ : State).sending = true ∧
    (⟨[⟨"a", "hi"⟩], false, false, true⟩ : State).queue =
      (⟨[⟨"a", "hi"⟩], false, false, false⟩ : State).queue :=
  dispatch_only_when_eligible ⟨[⟨"a", "hi"⟩], false, false, false⟩
    ⟨[⟨"a", "hi"⟩], false, false, true⟩ true ⟨"a", "hi"⟩ (by decide)

/-! ### C2: the Submitted outcome -/

/-- C2: processing `SUBMITTED(id)` removes exactly the head item, clears
`sending` and persists/broadcasts when the head's id matches; on a
mismatch (or empty queue) it only clears `sending` and leaves the queue
untouched with no persist and no broadcast; in neither case does it
evaluate dispatch eligibility or hand out a new item. -/
theorem submitted_removes_head_only (s : State) (id : String) :
    (step (.submitted id) s).1.sending = false ∧
    (step (.submitted id) s).1.queue =
      (if s.queue.head?.map Item.id = some id then s.queue.tail else s.queue) ∧
    (step (.submitted id) s).1.paused = s.paused ∧
    (step (.submitted id) s).1.pageBusy = s.pageBusy ∧
    (step (.submitted id) s).2.saved =
      (if s.queue.head?.map Item.id = some id then
        some ⟨s.queue.tail, s.paused⟩ else none) ∧
    (step (.submitted id) s).2.broadcasted =
      (if s.queue.head?.map Item.id = some id then true else false) ∧
    (step (.submitted id) s).2.dispatched = none ∧
    (step (.submitted id) s).2.evaluated = false := by
  cases hq : s.queue with
  | nil => simp [step, hq]
  | cons a rest =>
    by_cases hid : a.id = id
    · simp [step, hq, hid, saveRecord]
    · simp [step, hq, hid]

/-! ### C9: persistence round-trip -/

/-- C9: persisting a context and reloading it into a fresh context
reproduces the durable fields exactly (`queue` order and `paused`),
while the transient fields `pageBusy` and `sending` are `false` after
reload regardless of their previous values; the persisted record holds
exactly `{queue, paused}`. -/
theorem persistence_round_trip (s : State) :
    loadState (some (saveRecord s)) =
      { queue := s.queue, paused := s.paused, pageBusy := false, sending := false } ∧
    (saveRecord s).queue = s.queue ∧ (saveRecord s).paused = s.paused :=
  ⟨rfl, rfl, rfl⟩

/-! ### Helper lemmas about `updateFirst` -/

/-- `findIndex` misses exactly when no item carries the id. -/
lemma updateFirst_eq_none (id text : String) (l : List Item) :
    updateFirst id text l = none ↔ ∀ it ∈ l, it.id ≠ id := by
  induction l with
  | nil => simp [updateFirst]
  | cons a rest ih =>
    by_cases hid : a.id = id
    · simp [updateFirst, hid]
    · simp [updateFirst, hid, ih]

/-- Replacing the text of the first item carrying `id` rewrites exactly
that position and nothing else. -/
lemma updateFirst_split (id text : String) (pre : List Item) (it : Item)
    (post : List Item) (hpre : ∀ p ∈ pre, p.id ≠ id) (hit : it.id = id) :
    updateFirst id text (pre ++ it :: post) =
      some (pre ++ { it with text := text } :: post) := by
  induction pre with
  | nil => simp [updateFirst, hit]
  | cons a pre ih =>
    have ha : a.id ≠ id := hpre a (List.mem_cons_self a pre)
    have h := ih (fun p hp => hpre p (List.mem_cons_of_mem a hp))
    simp [updateFirst, ha, h]

/-- The edit preserves every item's id and its position. -/
lemma updateFirst_map_id (id text : String) (l l' : List Item)
    (h : updateFirst id text l = some l') :
    l'.map Item.id = l.map Item.id := by
  induction l generalizing l' with
  | nil => simp [updateFirst] at h
  | cons a rest ih =>
    by_cases hid : a.id = id
    · simp only [updateFirst, hid, if_true] at h
      obtain rfl := (Option.some.injEq _ _).mp h
      simp [hid]
    · simp only [updateFirst, hid, if_false, Option.map_eq_some'] at h
      obtain ⟨q, hq, rfl⟩ := h
      simp [ih q hq]

/-! ### C8: Edit replaces text in place, or reports not_found -/

/-- C8: `QUEUE_UPDATE(id, text)` with the id present replaces the first
matching item's text (trimmed) in place — same id, same position, other
items untouched — persists the new queue, broadcasts and acknowledges
`ok`; with the id absent it acknowledges `not_found` and performs no
state change, no persist and no broadcast. -/
theorem edit_replaces_text_in_place (s : State) (id text : String) :
    (∀ pre it post, s.queue = pre ++ it :: post →
      (∀ p ∈ pre, p.id ≠ id) → it.id = id →
      (step (.update id text) s).1 =
        { s with queue := pre ++ { it with text := jsTrim text } :: post } ∧
      (step (.update id text) s).2.response = some .ok ∧
      (step (.update id text) s).2.saved =
        some ⟨pre ++ { it with text := jsTrim text } :: post, s.paused⟩ ∧
      (step (.update id text) s).2.broadcasted = true) ∧
    ((∀ it ∈ s.queue, it.id ≠ id) →
      (step (.update id text) s).1 = s ∧
      (step (.update id text) s).2.response = some .notFound ∧
      (step (.update id text) s).2.saved = none ∧
      (step (.update id text) s).2.broadcasted = false) := by
  constructor
  · intro pre it post hq hpre hit
    have h := updateFirst_split id (jsTrim text) pre it post hpre hit
    rw [← hq] at h
    simp [step, h, saveRecord]
  · intro h
    have h0 : updateFirst id (jsTrim text) s.queue = none :=
      (updateFirst_eq_none id (jsTrim text) s.queue).mpr h
    simp [step, h0]

/-- Witness for C8: editing the only item, and editing a missing id. -/
theorem edit_replaces_text_in_place_witness :
    (step (.update "a" "y") ⟨[⟨"a", "x"⟩], false, false, false⟩).1 =
      { queue := [⟨"a", jsTrim "y"⟩], paused := false, pageBusy := false,
        sending := false } ∧
    (step (.update "a" "y") ⟨[⟨"a", "x"⟩], false, false, false⟩).2.response =
      some .ok :=
  have h := (edit_replaces_text_in_place ⟨[⟨"a", "x"⟩], false, false, false⟩
    "a" "y").1 [] ⟨"a", "x"⟩ [] rfl (by simp) rfl
  ⟨h.1, h.2.1⟩

/-! ### C4: Remove of a missing id still acknowledges ok (spec deviation) -/

/-- C4 counterexample: removing an id that is not present responds
`{ok: true}`, not `not_found` — `QUEUE_REMOVE` unconditionally filters
and acknowledges `ok`.  The queue is unchanged in that case. -/
theorem remove_missing_acks_ok_counterexample :
    (∀ it ∈ (⟨[⟨"a", "x"⟩], false, false, false⟩ : State).queue, it.id ≠ "z") ∧
    (step (.remove "z") ⟨[⟨"a", "x"⟩], false, false, false⟩).2.response =
      some .ok ∧
    (step (.remove "z") ⟨[⟨"a", "x"⟩], false, false, false⟩).2.response ≠
      some .notFound ∧
    (step (.remove "z") ⟨[⟨"a", "x"⟩], false, false, false⟩).1.queue =
      [⟨"a", "x"⟩] := by
  refine ⟨?_, rfl, by decide, rfl⟩
  intro it hit
  simp only [List.mem_singleton] at hit
  subst hit
  decide

/-- C4 amended: `QUEUE_REMOVE(id)` always acknowledges `ok`, whether or
not an item with the id is present; it removes every item carrying the
id, and when none is present the state is unchanged. -/
theorem remove_always_acks_ok (s : State) (id : String) :
    (step (.remove id) s).2.response = some .ok ∧
    (∀ it ∈ (step (.remove id) s).1.queue, it.id ≠ id) ∧
    ((∀ it ∈ s.queue, it.id ≠ id) → (step (.remove id) s).1 = s) := by
  refine ⟨rfl, ?_, ?_⟩
  · intro it hit
    simp only [step, List.mem_filter, bne_iff_ne, ne_eq] at hit
    exact hit.2
  · intro h
    have hf : s.queue.filter (fun it => it.id != id) = s.queue :=
      List.filter_eq_self.mpr (fun a ha => by simpa using h a ha)
    simp [step, hf]

/-- Witness for C4's amended claim on a concrete absent id. -/
theorem remove_always_acks_ok_witness :
    (step (.remove "z") ⟨[⟨"a", "x"⟩], false, false, false⟩).2.response =
      some .ok ∧
    (step (.remove "z") ⟨[⟨"a", "x"⟩], false, false, false⟩).1 =
      ⟨[⟨"a", "x"⟩], false, false, false⟩ :=
  ⟨(remove_always_acks_ok ⟨[⟨"a", "x"⟩], false, false, false⟩ "z").1,
   (remove_always_acks_ok ⟨[⟨"a", "x"⟩], false, false, false⟩ "z").2.2
     (by intro it hit; simp only [List.mem_singleton] at hit; subst hit; decide)⟩

/-! ### C7: PageState updates pageBusy; only busy-to-idle evaluates dispatch -/

/-- C7: `PAGE_STATE(busy)` stores the reported value in `pageBusy`; it
evaluates dispatch eligibility exactly when the stored value changes
from busy to idle, and when it does not (a busy report, or a repeat of
the current value) the state change is just the `pageBusy` update and no
item is handed to the Page Driver. -/
theorem page_state_transition (s : State) (busy sendOk : Bool) :
    (step (.pageState busy sendOk) s).1.pageBusy = busy ∧
    (step (.pageState busy sendOk) s).2.evaluated = (s.pageBusy && !busy) ∧
    ((s.pageBusy && !busy) = false →
      (step (.pageState busy sendOk) s).1 = { s with pageBusy := busy } ∧
      (step (.pageState busy sendOk) s).2.dispatched = none) := by
  rcases s with ⟨q, p, b, sd⟩
  cases b <;> cases busy <;>
    simp [step, maybeSendNext_pageBusy,
      maybeSendNext_queue, maybeSendNext_paused]

/-- Witness for C7: a busy report stores the value and dispatches
nothing. -/
theorem page_state_transition_witness :
    (step (.pageState true true) initState).1.pageBusy = true ∧
    (step (.pageState true true) initState).1 =
      { initState with pageBusy := true } ∧
    (step (.pageState true true) initState).2.dispatched = none :=
  ⟨(page_state_transition initState true true).1,
   ((page_state_transition initState true true).2.2 (by decide)).1,
   ((page_state_transition initState true true).2.2 (by decide)).2⟩

/-! ### C3: the `dispatching implies non-empty queue` invariant -/

/-- A dispatch attempt preserves `sending = true → queue ≠ []`. -/
lemma maybeSendNext_inv (sendOk : Bool) (s : State)
    (h : s.sending = true → s.queue ≠ []) :
    (maybeSendNext sendOk s).1.sending = true →
      (maybeSendNext sendOk s).1.queue ≠ [] := by
  rcases s with ⟨q, p, b, sd⟩
  cases p <;> cases sd <;> cases b <;> cases q <;> cases sendOk <;>
    simp_all [maybeSendNext]

/-- C3 counterexample: the invariant `dispatching → items nonempty` is
not preserved by `QUEUE_REMOVE`.  From a fresh context, enqueue "hi"
(the add handler immediately dispatches it, so `sending = true`), then
remove it: the resulting state has `sending = true` and an empty queue. -/
theorem dispatch_inv_counterexample :
    Reachable ⟨[⟨"a1", "hi"⟩], false, false, true⟩ ∧
    (step (.remove "a1") ⟨[⟨"a1", "hi"⟩], false, false, true⟩).1.sending = true ∧
    (step (.remove "a1") ⟨[⟨"a1", "hi"⟩], false, false, true⟩).1.queue = [] :=
  ⟨⟨[.add "a1" (some "hi") true], by decide⟩, rfl, by decide⟩

/-- C3 amended: after any trigger other than `QUEUE_REMOVE` and
`QUEUE_CLEAR`, the invariant `sending = true → queue ≠ []` is preserved;
those two triggers can delete the in-flight head and falsify it. -/
theorem dispatch_inv_preserved (s : State) (t : Trigger)
    (hInv : s.sending = true → s.queue ≠ [])
    (hrem : ∀ id, t ≠ .remove id) (hclr : t ≠ .clear) :
    (step t s).1.sending = true → (step t s).1.queue ≠ [] := by
  cases t with
  | add gid txt sendOk =>
    exact maybeSendNext_inv sendOk
      { s with queue := s.queue ++ [⟨gid, jsTrim (txt.getD "")⟩] }
      (fun _ => by simp)
  | remove id => exact absurd rfl (hrem id)
  | update id text =>
    intro hs
    cases h : updateFirst id (jsTrim text) s.queue with
    | none =>
      have he : (step (.update id text) s).1 = s := by simp [step, h]
      rw [he] at hs ⊢
      exact hInv hs
    | some q =>
      have he : (step (.update id text) s).1 = { s with queue := q } := by
        simp [step, h]
      rw [he] at hs ⊢
      have hmap := updateFirst_map_id id (jsTrim text) s.queue q h
      have hne := hInv hs
      intro hq0
      apply hne
      have hq0' : q = [] := hq0
      have hm : s.queue.map Item.id = [] := by rw [← hmap, hq0']; rfl
      exact List.map_eq_nil_iff.mp hm
  | clear => exact absurd rfl hclr
  | pause => exact fun hs => hInv hs
  | resume sendOk =>
    exact maybeSendNext_inv sendOk { s with paused := false } (fun hs => hInv hs)
  | pageState busy sendOk =>
    by_cases hc : (s.pageBusy != busy && !busy) = true
    · simp only [step, hc, if_true]
      exact maybeSendNext_inv sendOk { s with pageBusy := busy }
        (fun hs => hInv hs)
    · simp only [step, hc, if_false]
      exact fun hs => hInv hs
  | attempt sendOk => exact maybeSendNext_inv sendOk s hInv
  | submitted id =>
    cases hq : s.queue with
    | nil => intro hs; simp [step, hq] at hs
    | cons a rest =>
      by_cases hid : a.id = id
      · intro hs; simp [step, hq, hid] at hs
      · intro hs; simp [step, hq, hid] at hs
  | error => intro hs; simp [step] at hs

/-- Witness for C3's amended claim: `PAUSE` on a state with an in-flight
head keeps the queue non-empty. -/
theorem dispatch_inv_preserved_witness :
    (step .pause ⟨[⟨"a", "x"⟩], false, false, true⟩).1.queue ≠ [] :=
  dispatch_inv_preserved ⟨[⟨"a", "x"⟩], false, false, true⟩ .pause
    (by decide) (fun id h => Trigger.noConfusion h) (by decide) (by decide)

/-! ### C6: both dispatch failure modes keep the queue intact -/

/-- C6: when the handoff call fails (the `catch` in `maybeSendNext`),
the queue is untouched, the net effect on `sending` is nil (it is reset
to `false`, having been `false` at entry), nothing reaches the Page
Driver, and no retry timer is armed; when the Page Driver reports
`ERROR`, `sending` is cleared, the failed item stays at the head of the
unchanged queue, and the single-shot 400 ms retry timer is armed. -/
theorem dispatch_failure_keeps_queue (s : State) :
    ((step (.attempt false) s).1.queue = s.queue ∧
     (step (.attempt false) s).1.sending = s.sending ∧
     (step (.attempt false) s).2.dispatched = none ∧
     (step (.attempt false) s).2.retryArmed = false) ∧
    ((step .error s).1 = { s with sending := false } ∧
     (step .error s).1.queue = s.queue ∧
     (step .error s).2.retryArmed = true) :=
  ⟨⟨maybeSendNext_queue false s, maybeSendNext_false_sending s,
    maybeSendNext_false_dispatched s, rfl⟩, rfl, rfl, rfl⟩

/-! ### C5: FIFO order of the queue -/

/-- The id appended by a trigger, if it is an enqueue. -/
def addId (t : Trigger) : List String :=
  match t with
  | .add gid _ _ => [gid]
  | _ => []

lemma enqueuedIds_cons (t : Trigger) (ts : List Trigger) :
    enqueuedIds (t :: ts) = addId t ++ enqueuedIds ts := by
  cases t <;> rfl

lemma applyTriggers_cons (t : Trigger) (ts : List Trigger) (s : State) :
    applyTriggers (t :: ts) s = applyTriggers ts (step t s).1 := rfl

/-- Any single trigger either appends its enqueued id at the end of the
queue's id sequence or keeps that sequence an order-preserving
subsequence. -/
lemma step_queue_ids (t : Trigger) (s : State) :
    ((step t s).1.queue.map Item.id).Sublist (s.queue.map Item.id ++ addId t) := by
  cases t with
  | add gid txt sendOk =>
    have h : (step (.add gid txt sendOk) s).1.queue =
        s.queue ++ [⟨gid, jsTrim (txt.getD "")⟩] := maybeSendNext_queue sendOk _
    rw [h, List.map_append]
    exact List.Sublist.refl _
  | remove id =>
    simp only [step, addId, List.append_nil]
    exact (List.filter_sublist _).map Item.id
  | update id text =>
    cases h : updateFirst id (jsTrim text) s.queue with
    | none =>
      simp only [step, h, addId, List.append_nil]
      exact List.Sublist.refl _
    | some q =>
      have hmap := updateFirst_map_id id (jsTrim text) s.queue q h
      simp only [step, h, addId, List.append_nil]
      rw [hmap]
  | clear =>
    simp only [step, addId, List.append_nil, List.map_nil]
    exact List.nil_sublist _
  | pause =>
    simp only [step, addId, List.append_nil]
    exact List.Sublist.refl _
  | resume sendOk =>
    have h : (step (.resume sendOk) s).1.queue = s.queue :=
      maybeSendNext_queue sendOk _
    rw [h]
    simp only [addId, List.append_nil]
    exact List.Sublist.refl _
  | pageState busy sendOk =>
    by_cases hc : (s.pageBusy != busy && !busy) = true
    · simp only [step, hc, if_true, addId, List.append_nil]
      rw [maybeSendNext_queue sendOk _]
    · simp only [step, hc, if_false, addId, List.append_nil]
      exact List.Sublist.refl _
  | attempt sendOk =>
    have h : (step (.attempt sendOk) s).1.queue = s.queue :=
      maybeSendNext_queue sendOk _
    rw [h]
    simp only [addId, List.append_nil]
    exact List.Sublist.refl _
  | submitted id =>
    cases hq : s.queue with
    | nil =>
      simp [step, hq, addId]
    | cons a rest =>
      by_cases hid : a.id = id
      · simp only [step, hq, hid, if_true, addId, List.append_nil, List.map_cons]
        exact List.sublist_cons_self id _
      · simp only [step, hq, hid, if_false, addId, List.append_nil]
        exact List.Sublist.refl _
  | error =>
    simp only [step, addId, List.append_nil]
    exact List.Sublist.refl _

/-- Running a trigger sequence keeps the queue's ids an
order-preserving subsequence of the initial ids followed by the ids
enqueued along the way, in enqueue order. -/
lemma applyTriggers_ids (ts : List Trigger) (s : State) :
    ((applyTriggers ts s).queue.map Item.id).Sublist
      (s.queue.map Item.id ++ enqueuedIds ts) := by
  induction ts generalizing s with
  | nil =>
    simp only [applyTriggers, List.foldl_nil, enqueuedIds, List.filterMap_nil,
      List.append_nil]
    exact List.Sublist.refl _
  | cons t ts ih =>
    have h1 := ih (step t s).1
    have h2 := (step_queue_ids t s).append_right (enqueuedIds ts)
    rw [applyTriggers_cons, enqueuedIds_cons, ← List.append_assoc]
    exact h1.trans h2

/-- C5: each `QUEUE_ADD` appends `{id, trimmed text}` at the end of the
queue, and over any trigger sequence from a fresh context the queue's
ids remain an order-preserving subsequence of the enqueued ids in
enqueue order (FIFO), regardless of interleaved removes and edits. -/
theorem enqueue_fifo_order :
    (∀ (s : State) (gid : String) (txt : Option String) (sendOk : Bool),
      (step (.add gid txt sendOk) s).1.queue =
        s.queue ++ [⟨gid, jsTrim (txt.getD "")⟩]) ∧
    (∀ ts : List Trigger,
      ((applyTriggers ts initState).queue.map Item.id).Sublist
        (enqueuedIds ts)) := by
  constructor
  · intro s gid txt sendOk
    exact maybeSendNext_queue sendOk _
  · intro ts
    simpa [initState, loadState] using applyTriggers_ids ts initState

/-! ### C10: Enqueue never rejects its input -/

/-- A string of nothing but JavaScript whitespace trims to empty. -/
lemma jsTrim_all_ws (t : String) (h : ∀ c ∈ t.data, isJsWS c = true) :
    jsTrim t = "" := by
  unfold jsTrim
  have h1 : t.data.dropWhile isJsWS = [] := List.dropWhile_eq_nil_iff.mpr h
  rw [h1]
  rfl

/-- C10: `QUEUE_ADD` never rejects: for every input — including an
absent `text` field and a whitespace-only `text` — it appends an item
(whose text is the empty string in those cases) and acknowledges `ok`
together with the generated id; there is no validation error path. -/
theorem enqueue_never_rejects (s : State) (gid : String) (txt : Option String)
    (sendOk : Bool) :
    (step (.add gid txt sendOk) s).2.response = some (.okId gid) ∧
    (step (.add gid txt sendOk) s).1.queue =
      s.queue ++ [⟨gid, jsTrim (txt.getD "")⟩] ∧
    ((txt = none ∨ ∀ c ∈ (txt.getD "").data, isJsWS c = true) →
      (step (.add gid txt sendOk) s).1.queue = s.queue ++ [⟨gid, ""⟩]) := by
  refine ⟨rfl, maybeSendNext_queue sendOk _, ?_⟩
  intro h
  have ht : jsTrim (txt.getD "") = "" := by
    rcases h with h | h
    · subst h; rfl
    · exact jsTrim_all_ws _ h
  have h2 : (step (.add gid txt sendOk) s).1.queue =
      s.queue ++ [⟨gid, jsTrim (txt.getD "")⟩] := maybeSendNext_queue sendOk _
  rw [h2, ht]

/-- Witness for C10: enqueueing whitespace-only text still succeeds and
appends an empty-text item. -/
theorem enqueue_never_rejects_witness :
    (step (.add "i1" (some "  ") true) initState).2.response =
      some (.okId "i1") ∧
    (step (.add "i1" (some "  ") true) initState).1.queue = [⟨"i1", ""⟩] :=
  have h := enqueue_never_rejects initState "i1" (some "  ") true
  ⟨h.1, h.2.2 (Or.inr (by decide))⟩

end PowerChat
